import Mathlib

/-!
Verification of the synthesizer core of src/source/main.cpp.

Modelling conventions:
* C++ double values are modelled by the type FV below: an exact rational
  (arithmetic on finite doubles is idealised to exact rational arithmetic)
  together with the three IEEE special values +inf, -inf and NaN.  The
  special values matter here because envelope_adsr::amplitude divides by
  envelope phase lengths that several instruments set to 0.  Division is
  the only operation in the translated code that creates a special value
  from finite arguments; addition, multiplication and comparisons
  propagate them with the IEEE rules (NaN compares false with everything).
* The oscillator osc uses sin and rand, which have no exact rational
  semantics; instrument waveforms are therefore parameterised by an
  abstract oscillator model (OscModel).  Everything an oscillator is fed
  (argument order and constants) is translated literally from the source.
* std::vector is modelled by List, raw instrument pointers by Option Nat
  (a handle; nullptr is none).
-/

namespace Synth

/-- A double value: an exact rational, or one of the IEEE special values. -/
inductive FV where
  | fin : ℚ → FV
  | pinf : FV
  | ninf : FV
  | nan : FV
deriving DecidableEq

/-- IEEE negation. -/
def FV.neg : FV → FV
  | .fin q => .fin (-q)
  | .pinf => .ninf
  | .ninf => .pinf
  | .nan => .nan

/-- IEEE addition: NaN propagates, opposite infinities give NaN. -/
def FV.add : FV → FV → FV
  | .nan, _ => .nan
  | _, .nan => .nan
  | .fin a, .fin b => .fin (a + b)
  | .pinf, .ninf => .nan
  | .ninf, .pinf => .nan
  | .pinf, _ => .pinf
  | .ninf, _ => .ninf
  | _, .pinf => .pinf
  | _, .ninf => .ninf

/-- IEEE subtraction. -/
def FV.sub (a b : FV) : FV := a.add b.neg

/-- IEEE multiplication: NaN propagates, 0 times an infinity gives NaN. -/
def FV.mul : FV → FV → FV
  | .nan, _ => .nan
  | _, .nan => .nan
  | .fin a, .fin b => .fin (a * b)
  | .fin a, .pinf => if a = 0 then .nan else if 0 < a then .pinf else .ninf
  | .fin a, .ninf => if a = 0 then .nan else if 0 < a then .ninf else .pinf
  | .pinf, .fin b => if b = 0 then .nan else if 0 < b then .pinf else .ninf
  | .ninf, .fin b => if b = 0 then .nan else if 0 < b then .ninf else .pinf
  | .pinf, .pinf => .pinf
  | .pinf, .ninf => .ninf
  | .ninf, .pinf => .ninf
  | .ninf, .ninf => .pinf

/-- IEEE comparison (less or equal): any comparison with NaN is false. -/
def FV.le : FV → FV → Bool
  | .nan, _ => false
  | _, .nan => false
  | .fin a, .fin b => decide (a ≤ b)
  | .ninf, _ => true
  | _, .pinf => true
  | .pinf, _ => false
  | .fin _, .ninf => false

/-- Division of two finite doubles, the one source of special values in
the translated code: x/0 is +inf, -inf or NaN depending on the sign of x. -/
def fdiv (a b : ℚ) : FV :=
  if b ≠ 0 then .fin (a / b)
  else if 0 < a then .pinf
  else if a < 0 then .ninf
  else .nan

/-- The five ADSR parameters of envelope_adsr (source lines 116-120). -/
structure EnvParams where
  dAttackTime : ℚ
  dDecayTime : ℚ
  dSustainAmplitude : ℚ
  dReleaseTime : ℚ
  dStartAmplitude : ℚ
deriving DecidableEq

/-- The three-branch attack/decay/sustain cascade that
envelope_adsr::amplitude writes out twice (once for dAmplitude in the
note-on branch, lines 140-147, and once for dReleaseAmplitude in the
note-off branch, lines 153-160).  The three ifs are sequential and each
overwrites the previous value, exactly as in the source. -/
def heldAmpRaw (e : EnvParams) (dLifeTime : ℚ) : FV :=
  let a1 := if dLifeTime ≤ e.dAttackTime
    then (fdiv dLifeTime e.dAttackTime).mul (FV.fin e.dStartAmplitude)
    else FV.fin 0
  let a2 := if e.dAttackTime < dLifeTime ∧ dLifeTime ≤ e.dAttackTime + e.dDecayTime
    then ((fdiv (dLifeTime - e.dAttackTime) e.dDecayTime).mul
            (FV.fin (e.dSustainAmplitude - e.dStartAmplitude))).add (FV.fin e.dStartAmplitude)
    else a1
  if e.dAttackTime + e.dDecayTime < dLifeTime then FV.fin e.dSustainAmplitude else a2

/-- envelope_adsr::amplitude (source lines 131-170).  The note is on when
dTimeOn > dTimeOff (strictly); otherwise the release ramp
((dTime - dTimeOff) / dReleaseTime) * (0 - dReleaseAmplitude) + dReleaseAmplitude
is applied to the amplitude the held branch would have produced at the
moment of release.  Finally any amplitude <= 0.01 is clamped to 0; note
that a NaN amplitude fails this comparison and is returned unclamped. -/
def amplitude (e : EnvParams) (dTime dTimeOn dTimeOff : ℚ) : FV :=
  let dAmplitude :=
    if dTimeOff < dTimeOn then
      heldAmpRaw e (dTime - dTimeOn)
    else
      let dReleaseAmplitude := heldAmpRaw e (dTimeOff - dTimeOn)
      ((fdiv (dTime - dTimeOff) e.dReleaseTime).mul
        ((FV.fin 0).sub dReleaseAmplitude)).add dReleaseAmplitude
  if dAmplitude.le (FV.fin (1/100)) then FV.fin 0 else dAmplitude

/-- Defaults set by the envelope_adsr constructor (source lines 122-129). -/
def defaultEnv : EnvParams :=
  { dAttackTime := 1/10, dDecayTime := 1/10, dSustainAmplitude := 1,
    dReleaseTime := 1/5, dStartAmplitude := 1 }

/-- Envelope of instrument_bell (source lines 192-195). -/
def bellEnv : EnvParams :=
  { dAttackTime := 1/100, dDecayTime := 1, dSustainAmplitude := 0,
    dReleaseTime := 1, dStartAmplitude := 1 }

/-- Envelope of instrument_bell8 (source lines 220-223). -/
def bell8Env : EnvParams :=
  { dAttackTime := 1/100, dDecayTime := 1/2, dSustainAmplitude := 4/5,
    dReleaseTime := 1, dStartAmplitude := 1 }

/-- Envelope of instrument_harmonica (source lines 248-251): attack 0. -/
def harmonicaEnv : EnvParams :=
  { dAttackTime := 0, dDecayTime := 1, dSustainAmplitude := 19/20,
    dReleaseTime := 1/2, dStartAmplitude := 1 }

/-- Envelope of instrument_drumkick (source lines 278-281): release 0. -/
def kickEnv : EnvParams :=
  { dAttackTime := 1/100, dDecayTime := 3/20, dSustainAmplitude := 0,
    dReleaseTime := 0, dStartAmplitude := 1 }

/-- Envelope of instrument_drumsnare (source lines 305-308): attack 0, release 0. -/
def snareEnv : EnvParams :=
  { dAttackTime := 0, dDecayTime := 1/5, dSustainAmplitude := 0,
    dReleaseTime := 0, dStartAmplitude := 1 }

/-- Envelope of instrument_drumhihat (source lines 333-336): release 0. -/
def hihatEnv : EnvParams :=
  { dAttackTime := 1/100, dDecayTime := 1/20, dSustainAmplitude := 0,
    dReleaseTime := 0, dStartAmplitude := 1 }

/-- A note (source lines 26-44).  The source fields are id, on, off,
active and channel; the on timestamp is named tOn here because on is a
reserved token in Lean.  The channel field is the raw instrument
pointer, modelled as an optional instrument handle; nullptr is none. -/
structure note where
  id : Int
  tOn : ℚ
  off : ℚ
  active : Bool
  channel : Option Nat
deriving DecidableEq

/-- The note default constructor (source lines 34-41). -/
def defaultNote : note :=
  { id := 0, tOn := 0, off := 0, active := false, channel := none }

/-- The polymorphic contract instrument_base::sound (source line 185):
given an instrument handle, a time and a note, return the sample and the
finished flag.  Left abstract for the registry and mixer theorems, which
hold for every instrument behaviour. -/
abbrev SoundFn : Type := Nat → ℚ → note → FV × Bool

/-- One iteration of the MakeNoise loop body (source lines 465-479): the
sample defaults to 0 and the finished flag to false; the instrument is
consulted only when the channel pointer is non-null, and a finished note
has its active flag cleared. -/
def processNote (f : SoundFn) (dTime : ℚ) (n : note) : FV × note :=
  match n.channel with
  | some i =>
    let r := f i dTime n
    (r.1, if r.2 then { n with active := false } else n)
  | none => (FV.fin 0, n)

/-- MakeNoise (source lines 460-483): mix every note's sample into
dMixedOutput, clear the active flag of finished notes, then safe_remove
(source lines 447-456) erases every note whose active flag is false, and
the mixed sum is scaled by the master gain 0.2.  The single source loop
both accumulates the sum and updates the notes; its iterations are
independent, so it is rendered as a fold for the sum and a map for the
updates. -/
def makeNoise (f : SoundFn) (dTime : ℚ) (ns : List note) : FV × List note :=
  let dMixedOutput := ns.foldl (fun acc n => acc.add (processNote f dTime n).1) (FV.fin 0)
  let updated := ns.map (fun n => (processNote f dTime n).2)
  (dMixedOutput.mul (FV.fin (1/5)), updated.filter (fun n => n.active))

/-- Sum of a list of samples, for stating what makeNoise returns. -/
def sumFV : List FV → FV
  | [] => FV.fin 0
  | x :: xs => x.add (sumFV xs)

/-- The SDL_KEYUP handler of main (source lines 575-578): find_if looks
up the note with the given pitch id and instrument pointer, and off is
stamped only when off < on.  The KEYUP branch, unlike the KEYDOWN branch
at line 556, never compares the iterator against vecNotes.end(): when no
note matches, the source dereferences the end iterator, which is
undefined behaviour, modelled here as none. -/
def keyUpRelease (pitch : Int) (instr : Nat) (time : ℚ) : List note → Option (List note)
  | [] => none
  | n :: rest =>
    if n.id == pitch && n.channel == some instr then
      some ((if n.off < n.tOn then { n with off := time } else n) :: rest)
    else
      match keyUpRelease pitch instr time rest with
      | none => none
      | some rest2 => some (n :: rest2)

/-- Scale to frequency conversion (source lines 96-103): the default
scale returns 8 * 1.0594630943592952645618252949463 ^ nNoteID, the base
of the power being the source's decimal literal for the twelfth root of
two, taken exactly. -/
def scaleBase : ℚ :=
  10594630943592952645618252949463 / 10000000000000000000000000000000

/-- scale (source line 96): frequency of a scale degree, any integer. -/
def scaleQ (nNoteID : Int) : ℚ := 8 * scaleBase ^ nNoteID

/-- Oscillator kind constants (source lines 48-53). -/
def OSC_SINE : Int := 0

def OSC_SQUARE : Int := 1

def OSC_TRIANGLE : Int := 2

def OSC_SAW_ANA : Int := 3

def OSC_SAW_DIG : Int := 4

def OSC_NOISE : Int := 5

/-- The multi-function oscillator osc (source lines 55-89) computes with
sin and rand, which have no exact rational semantics; it is therefore
kept abstract as a function of the exact argument list of the source:
time, frequency, kind, LFO frequency, LFO amplitude and the custom
parameter (defaults 0, 0 and 50). -/
structure OscModel where
  osc : ℚ → ℚ → Int → ℚ → ℚ → ℚ → ℚ

/-- instrument_harmonica::sound (source lines 257-269): envelope
amplitude from the harmonica parameters, finished when the amplitude is
at or below 0, and a fixed weighted sum of four oscillator calls, scaled
by the amplitude and the volume 0.3. -/
def harmonica_sound (M : OscModel) (dTime : ℚ) (n : note) : FV × Bool :=
  let dAmplitude := amplitude harmonicaEnv dTime n.tOn n.off
  let bNoteFinished := dAmplitude.le (FV.fin 0)
  let dSound : ℚ :=
      1 * M.osc (n.tOn - dTime) (scaleQ (n.id - 12)) OSC_SAW_ANA 5 (1/1000) 100
    + 1 * M.osc (dTime - n.tOn) (scaleQ n.id) OSC_SQUARE 5 (1/1000) 50
    + (1/2) * M.osc (dTime - n.tOn) (scaleQ (n.id + 12)) OSC_SQUARE 0 0 50
    + (1/20) * M.osc (dTime - n.tOn) (scaleQ (n.id + 24)) OSC_NOISE 0 0 50
  ((dAmplitude.mul (FV.fin dSound)).mul (FV.fin (3/10)), bNoteFinished)

/-- A sequencer channel (source lines 360-364): an instrument handle and
a beat pattern string, modelled as a list of characters. -/
structure SeqChannel where
  instrument : Nat
  sBeat : List Char
deriving DecidableEq

/-- The sequencer state (source lines 419-430). -/
structure Sequencer where
  nBeats : Int
  nSubBeats : Int
  fTempo : ℚ
  fBeatTime : ℚ
  fAccumulate : ℚ
  nCurrentBeat : Int
  nTotalBeats : Int
  vecChannel : List SeqChannel
  vecNotes : List note

/-- The sequencer constructor (source lines 367-376). -/
def Sequencer.make (tempo : ℚ) (beats subbeats : Int) : Sequencer :=
  { nBeats := beats, nSubBeats := subbeats, fTempo := tempo,
    fBeatTime := (60 / tempo) / (subbeats : ℚ),
    fAccumulate := 0, nCurrentBeat := 0,
    nTotalBeats := subbeats * beats,
    vecChannel := [], vecNotes := [] }

/-- The per-step channel sweep inside sequencer::Update (source lines
392-404): every channel whose pattern has an X at the current beat emits
a default-constructed note with its channel, active flag and id 64 set.
Out-of-range pattern indexing (undefined in the source) reads a blank. -/
def seqStep (chans : List SeqChannel) (cur : Int) (notes : List note) : List note :=
  notes ++ chans.filterMap (fun c =>
    if c.sBeat.getD cur.toNat ' ' = 'X' then
      some { defaultNote with channel := some c.instrument, active := true, id := 64 }
    else none)

/-- The while loop of sequencer::Update (source lines 384-405), with an
explicit fuel argument for termination; the caller passes more fuel than
the loop can consume, so the fuel-exhausted branch is never reached. -/
def seqLoopF : Nat → ℚ → ℚ → Int → Int → List SeqChannel → List note → ℚ × Int × List note
  | 0, _, acc, cur, _, _, notes => (acc, cur, notes)
  | Nat.succ fuel, beatTime, acc, cur, total, chans, notes =>
    if beatTime ≤ acc then
      let acc2 := acc - beatTime
      let cur2 := cur + 1
      let cur3 := if total ≤ cur2 then 0 else cur2
      seqLoopF fuel beatTime acc2 cur3 total chans (seqStep chans cur3 notes)
    else (acc, cur, notes)

/-- sequencer::Update (source lines 379-410): clear vecNotes, add the
elapsed time to the accumulator, run the sub-beat loop, and return the
number of emitted notes. -/
def Sequencer.update (s : Sequencer) (fElapsedTime : ℚ) : Sequencer × Nat :=
  let acc0 := s.fAccumulate + fElapsedTime
  let fuel := (Int.floor (acc0 / s.fBeatTime)).toNat + 1
  let r := seqLoopF fuel s.fBeatTime acc0 s.nCurrentBeat s.nTotalBeats s.vecChannel []
  ({ s with fAccumulate := r.1, nCurrentBeat := r.2.1, vecNotes := r.2.2 }, r.2.2.length)

/-- The sixteen-step pattern of claim C8: a hit on step 0 only. -/
def c8Pattern : List Char := 'X' :: List.replicate 15 '.'

/-- The sequencer of claim C8: tempo 120, 4 beats, 4 sub-beats, one
channel whose pattern hits on step 0 only. -/
def c8Seq : Sequencer :=
  { Sequencer.make 120 4 4 with vecChannel := [{ instrument := 2, sBeat := c8Pattern }] }

/-- A sound function that always returns a zero sample and not finished,
used to instantiate the mixer theorems at a concrete input. -/
def zeroSound : SoundFn := fun _ _ _ => (FV.fin 0, false)

/-- A sound function that always reports finished, used to instantiate
the registry retirement theorem at a concrete input. -/
def doneSound : SoundFn := fun _ _ _ => (FV.fin 1, true)

/-- A note with a null instrument pointer, used as a concrete input. -/
def nullNote : note :=
  { id := 0, tOn := 0, off := 0, active := true, channel := none }

/-- A live harmonica note, used as a concrete input. -/
def liveNote : note :=
  { id := 64, tOn := 0, off := 0, active := true, channel := some 1 }

/-- A trivial oscillator model, used as a concrete input. -/
def zeroOsc : OscModel := { osc := fun _ _ _ _ _ _ => 0 }

/-- The 0.01 silence floor of amplitude, restricted to finite values:
derived from the final clamp of envelope_adsr::amplitude for use in the
envelope lemmas. -/
def clampQ (q : ℚ) : ℚ := if q ≤ 1/100 then 0 else q

/-! Helper lemmas about the double model. -/

lemma FV.add_assoc (a b c : FV) : (a.add b).add c = a.add (b.add c) := by
  cases a <;> cases b <;> cases c <;> simp [FV.add] <;> try ring

lemma FV.add_fin_zero (a : FV) : a.add (FV.fin 0) = a := by
  cases a <;> simp [FV.add]

lemma FV.fin_zero_add (a : FV) : (FV.fin 0).add a = a := by
  cases a <;> simp [FV.add]

lemma sumFV_append (l1 l2 : List FV) :
    sumFV (l1 ++ l2) = (sumFV l1).add (sumFV l2) := by
  induction l1 with
  | nil => simp [sumFV, FV.fin_zero_add]
  | cons x xs ih => simp [sumFV, ih, FV.add_assoc]

lemma foldl_add_sumFV (l : List FV) (a : FV) : l.foldl FV.add a = a.add (sumFV l) := by
  induction l generalizing a with
  | nil => simp [sumFV, FV.add_fin_zero]
  | cons x xs ih => rw [List.foldl_cons, ih, FV.add_assoc]; rfl

/-! Helper lemmas about the mixer. -/

lemma makeNoise_fst (f : SoundFn) (t : ℚ) (ns : List note) :
    (makeNoise f t ns).1 = (sumFV (ns.map (fun n => (processNote f t n).1))).mul (FV.fin (1/5)) := by
  have h : ns.foldl (fun acc n => acc.add (processNote f t n).1) (FV.fin 0)
      = (ns.map (fun n => (processNote f t n).1)).foldl FV.add (FV.fin 0) := by
    rw [List.foldl_map]
  show (ns.foldl (fun acc n => acc.add (processNote f t n).1) (FV.fin 0)).mul (FV.fin (1/5)) = _
  rw [h, foldl_add_sumFV, FV.fin_zero_add]

lemma makeNoise_snd (f : SoundFn) (t : ℚ) (ns : List note) :
    (makeNoise f t ns).2
      = ((ns.map (fun n => (processNote f t n).2)).filter (fun n => n.active)) := rfl

lemma mem_makeNoise_snd {f : SoundFn} {t : ℚ} {ns : List note} {m : note} :
    m ∈ (makeNoise f t ns).2 ↔ (∃ n ∈ ns, (processNote f t n).2 = m) ∧ m.active = true := by
  rw [makeNoise_snd]
  simp [List.mem_filter, List.mem_map, and_assoc]

lemma makeNoise_mem_active_sub (f : SoundFn) (t : ℚ) (ns : List note) :
    ∀ m ∈ (makeNoise f t ns).2, m.active = true ∧ m ∈ ns := by
  intro m hm
  rw [mem_makeNoise_snd] at hm
  obtain ⟨⟨k, hk, hpk⟩, hact⟩ := hm
  refine ⟨hact, ?_⟩
  cases hch : k.channel with
  | none =>
    simp [processNote, hch] at hpk
    rw [← hpk]; exact hk
  | some i =>
    simp only [processNote, hch] at hpk
    cases hf : (f i t k).2 with
    | false => simp [hf] at hpk; rw [← hpk]; exact hk
    | true =>
      simp [hf] at hpk
      rw [← hpk] at hact
      simp at hact

lemma makeNoise_finished_not_mem (f : SoundFn) (t : ℚ) (ns : List note) (n : note) (i : Nat)
    (hch : n.channel = some i) (hfin : (f i t n).2 = true) :
    n ∉ (makeNoise f t ns).2 := by
  intro hmem
  rw [mem_makeNoise_snd] at hmem
  obtain ⟨⟨k, hk, hpk⟩, hact⟩ := hmem
  cases hkch : k.channel with
  | none =>
    simp [processNote, hkch] at hpk
    rw [hpk] at hkch
    rw [hch] at hkch
    exact Option.noConfusion hkch
  | some j =>
    simp only [processNote, hkch] at hpk
    cases hf : (f j t k).2 with
    | true =>
      simp [hf] at hpk
      rw [← hpk] at hact
      simp at hact
    | false =>
      simp [hf] at hpk
      rw [hpk] at hkch hf
      rw [hch] at hkch
      cases hkch
      rw [hfin] at hf
      exact Bool.noConfusion hf

/-! Helper lemmas about the envelope. -/

lemma heldAmpRaw_sustain (e : EnvParams) (life : ℚ)
    (h : e.dAttackTime + e.dDecayTime < life) :
    heldAmpRaw e life = FV.fin e.dSustainAmplitude := by
  simp [heldAmpRaw, h]

lemma heldAmpRaw_zero (e : EnvParams) (hA : 0 < e.dAttackTime) (hD : 0 ≤ e.dDecayTime) :
    heldAmpRaw e 0 = FV.fin 0 := by
  have h2 : ¬ e.dAttackTime < 0 := not_lt.mpr hA.le
  have h3 : ¬ e.dAttackTime + e.dDecayTime < 0 := not_lt.mpr (by linarith)
  simp [heldAmpRaw, fdiv, FV.mul, hA.le, h2, h3, ne_of_gt hA]

lemma heldAmpRaw_attack (e : EnvParams) (hA : 0 < e.dAttackTime) (hD : 0 ≤ e.dDecayTime) :
    heldAmpRaw e e.dAttackTime = FV.fin e.dStartAmplitude := by
  have h2 : ¬ e.dAttackTime < e.dAttackTime := lt_irrefl _
  have h3 : ¬ e.dAttackTime + e.dDecayTime < e.dAttackTime := not_lt.mpr (by linarith)
  simp [heldAmpRaw, fdiv, FV.mul, h2, h3, ne_of_gt hA, div_self (ne_of_gt hA)]

lemma amplitude_held (e : EnvParams) (t tOn tOff : ℚ) (h : tOff < tOn) :
    amplitude e t tOn tOff =
      if (heldAmpRaw e (t - tOn)).le (FV.fin (1/100)) then FV.fin 0
      else heldAmpRaw e (t - tOn) := by
  simp [amplitude, h]

lemma clamp_fin (q : ℚ) :
    (if (FV.fin q).le (FV.fin (1/100)) then FV.fin 0 else FV.fin q) = FV.fin (clampQ q) := by
  unfold clampQ
  simp only [FV.le, decide_eq_true_eq]
  by_cases h : q ≤ 1/100
  · rw [if_pos h, if_pos h]
  · rw [if_neg h, if_neg h]

lemma clampQ_mono {a b : ℚ} (h : a ≤ b) : clampQ a ≤ clampQ b := by
  unfold clampQ
  by_cases hb : b ≤ 1/100
  · rw [if_pos (le_trans h hb), if_pos hb]
  · rw [if_neg hb]
    by_cases ha : a ≤ 1/100
    · rw [if_pos ha]
      linarith [lt_of_not_le hb]
    · rw [if_neg ha]
      exact h

lemma clampQ_of_le {a : ℚ} (h : a ≤ 1/100) : clampQ a = 0 := by
  unfold clampQ
  rw [if_pos h]

lemma clampFV_fin (v : FV) (q : ℚ)
    (h : (if v.le (FV.fin (1/100)) then FV.fin 0 else v) = FV.fin q) :
    q = 0 ∨ 1/100 < q := by
  cases v with
  | fin a =>
    simp only [FV.le, decide_eq_true_eq] at h
    by_cases ha : a ≤ 1/100
    · rw [if_pos ha] at h
      injection h with h0
      exact Or.inl h0.symm
    · rw [if_neg ha] at h
      injection h with h0
      rw [← h0]
      exact Or.inr (lt_of_not_le ha)
  | pinf => simp [FV.le] at h
  | ninf =>
    simp [FV.le] at h
    exact Or.inl h.symm
  | nan => simp [FV.le] at h

lemma amplitude_fin_floor (e : EnvParams) (t u v q : ℚ)
    (h : amplitude e t u v = FV.fin q) : q = 0 ∨ 1/100 < q :=
  clampFV_fin _ q h

lemma amplitude_released_sustain (e : EnvParams) (tOn T t : ℚ)
    (hR : e.dReleaseTime ≠ 0) (hOn : tOn ≤ T)
    (hSus : e.dAttackTime + e.dDecayTime < T - tOn) :
    amplitude e t tOn T =
      FV.fin (clampQ ((t - T) / e.dReleaseTime * (0 - e.dSustainAmplitude)
        + e.dSustainAmplitude)) := by
  have hno : ¬ T < tOn := not_lt.mpr hOn
  have hfdiv : fdiv (t - T) e.dReleaseTime = FV.fin ((t - T) / e.dReleaseTime) := by
    simp [fdiv, hR]
  simp only [amplitude, if_neg hno, heldAmpRaw_sustain e _ hSus, hfdiv,
    FV.sub, FV.neg, FV.add, FV.mul]
  rw [clamp_fin]
  congr 2
  ring

lemma amplitude_off_irrelevant (e : EnvParams) (t tOn off1 off2 : ℚ)
    (h1 : off1 < tOn) (h2 : off2 < tOn) :
    amplitude e t tOn off1 = amplitude e t tOn off2 := by
  rw [amplitude_held e t tOn off1 h1, amplitude_held e t tOn off2 h2]

/-! Claim theorems. -/

/-- Claim C1, counterexample to the claim as stated: with on = 0 and
off = 0 the note is NOT in the held regime.  The code selects the held
branch only when on > off strictly, so on = off = 0 takes the released
branch with release amplitude 0, and at t = attackTime the amplitude is
0, not approximately startAmplitude = 1. -/
theorem C1_cex :
    defaultEnv.dAttackTime = 1/10 ∧ defaultEnv.dStartAmplitude = 1 ∧
    amplitude defaultEnv (1/10) 0 0 = FV.fin 0 ∧ FV.fin (0:ℚ) ≠ FV.fin (1:ℚ) := by
  refine ⟨rfl, rfl, ?_, by norm_num⟩
  norm_num [amplitude, heldAmpRaw, fdiv, FV.mul, FV.add, FV.sub, FV.neg, FV.le, defaultEnv]

/-- Claim C1 (amended): a note is held only when off < on strictly; for
such a note, amplitude at t = on is 0, at t = on + attackTime it equals
startAmplitude, and beyond on + attackTime + decayTime it equals
sustainAmplitude (for positive attack, nonnegative decay, and start and
sustain amplitudes above the 0.01 floor).  A note with on = 0 and
off = 0 instead takes the released branch with release amplitude 0, so
its amplitude is 0 for every query time; in particular
amplitude(0,0,0) = 0 as claimed. -/
theorem C1_held_profile (e : EnvParams) (tOn tOff : ℚ) (hoff : tOff < tOn)
    (hA : 0 < e.dAttackTime) (hD : 0 ≤ e.dDecayTime)
    (hS : 1/100 < e.dStartAmplitude) (hSus : 1/100 < e.dSustainAmplitude) :
    amplitude e tOn tOn tOff = FV.fin 0 ∧
    amplitude e (tOn + e.dAttackTime) tOn tOff = FV.fin e.dStartAmplitude ∧
    (∀ t, tOn + e.dAttackTime + e.dDecayTime < t →
      amplitude e t tOn tOff = FV.fin e.dSustainAmplitude) ∧
    (∀ t, amplitude defaultEnv t 0 0 = FV.fin 0) := by
  refine ⟨?_, ?_, ?_, ?_⟩
  · rw [amplitude_held e tOn tOn tOff hoff, sub_self, heldAmpRaw_zero e hA hD,
      clamp_fin, clampQ_of_le (by norm_num)]
  · rw [amplitude_held e _ tOn tOff hoff,
      show tOn + e.dAttackTime - tOn = e.dAttackTime by ring,
      heldAmpRaw_attack e hA hD, clamp_fin]
    unfold clampQ
    rw [if_neg (not_le.mpr hS)]
  · intro t ht
    rw [amplitude_held e t tOn tOff hoff,
      heldAmpRaw_sustain e _ (by linarith), clamp_fin]
    unfold clampQ
    rw [if_neg (not_le.mpr hSus)]
  · intro t
    norm_num [amplitude, heldAmpRaw, fdiv, FV.mul, FV.add, FV.sub, FV.neg, FV.le, defaultEnv]

/-- Claim C1, witness: the amended profile at on = 1, off = 0 with the
default envelope, and the on = off = 0 note evaluated at t = 5. -/
theorem C1_held_profile_witness :
    amplitude defaultEnv 1 1 0 = FV.fin 0 ∧
    amplitude defaultEnv (1 + defaultEnv.dAttackTime) 1 0 = FV.fin defaultEnv.dStartAmplitude ∧
    amplitude defaultEnv 2 1 0 = FV.fin defaultEnv.dSustainAmplitude ∧
    amplitude defaultEnv 5 0 0 = FV.fin 0 := by
  have h := C1_held_profile defaultEnv 1 0 (by norm_num)
    (by norm_num [defaultEnv]) (by norm_num [defaultEnv])
    (by norm_num [defaultEnv]) (by norm_num [defaultEnv])
  exact ⟨h.1, h.2.1, h.2.2.1 2 (by norm_num [defaultEnv]), h.2.2.2 5⟩

/-- Claim C2: the claim (and the spec's edge-case requirement) says a
zero attack time must not divide by zero, but the code does: with the
harmonica envelope (attack time 0), a query at exactly t = on computes
0.0/0.0 = NaN in the attack branch, and NaN then escapes the 0.01 clamp
because NaN compares false, so amplitude returns NaN: the amplitude is
not well-defined at every query time. -/
theorem C2_attack_zero_nan :
    harmonicaEnv.dAttackTime = 0 ∧ amplitude harmonicaEnv 5 5 0 = FV.nan ∧
    FV.nan ≠ FV.fin 0 := by
  refine ⟨rfl, ?_, by simp⟩
  norm_num [amplitude, heldAmpRaw, fdiv, FV.mul, FV.add, FV.sub, FV.neg, FV.le, harmonicaEnv]

/-- Claim C3, counterexample to the claim as stated: for the snare
envelope (releaseTime 0, one of the three drum envelopes), a note held
to sustain and released at T = 1 has amplitude NaN, not 0, at
t = T + releaseTime = T, because the release ramp divides by the zero
release time. -/
theorem C3_cex :
    snareEnv.dReleaseTime = 0 ∧
    snareEnv.dAttackTime + snareEnv.dDecayTime < 1 - 0 ∧
    amplitude snareEnv (1 + snareEnv.dReleaseTime) 0 1 = FV.nan ∧
    FV.nan ≠ FV.fin 0 := by
  refine ⟨rfl, by norm_num [snareEnv], ?_, by simp⟩
  norm_num [amplitude, heldAmpRaw, fdiv, FV.mul, FV.add, FV.sub, FV.neg, FV.le, snareEnv]

/-- Claim C3 (amended): for any envelope with releaseTime > 0, held to
sustain and released at T, the amplitude is 0 at t = T + releaseTime and
monotonically non-increasing on [T, T + releaseTime]; and for every
query of any envelope, a returned finite amplitude is either exactly 0
or above the 0.01 floor (never negative, never in (0, 0.01]).  The
drum envelopes (releaseTime = 0) are excluded: there the release ramp
produces NaN at t = T. -/
theorem C3_release_profile (e : EnvParams) (tOn T : ℚ)
    (hR : 0 < e.dReleaseTime) (hOn : tOn ≤ T)
    (hSus : e.dAttackTime + e.dDecayTime < T - tOn) :
    amplitude e (T + e.dReleaseTime) tOn T = FV.fin 0 ∧
    (∀ t1 t2, T ≤ t1 → t1 ≤ t2 → t2 ≤ T + e.dReleaseTime →
      ∃ q1 q2, amplitude e t1 tOn T = FV.fin q1 ∧ amplitude e t2 tOn T = FV.fin q2 ∧
        q2 ≤ q1) ∧
    (∀ t u v q, amplitude e t u v = FV.fin q → q = 0 ∨ 1/100 < q) := by
  have hR' : e.dReleaseTime ≠ 0 := ne_of_gt hR
  refine ⟨?_, ?_, ?_⟩
  · rw [amplitude_released_sustain e tOn T _ hR' hOn hSus]
    have hx : (T + e.dReleaseTime - T) / e.dReleaseTime * (0 - e.dSustainAmplitude)
        + e.dSustainAmplitude = 0 := by
      rw [show T + e.dReleaseTime - T = e.dReleaseTime by ring, div_self hR']
      ring
    rw [hx, clampQ_of_le (by norm_num)]
  · intro t1 t2 ht1 h12 ht2
    rw [amplitude_released_sustain e tOn T t1 hR' hOn hSus,
      amplitude_released_sustain e tOn T t2 hR' hOn hSus]
    refine ⟨_, _, rfl, rfl, ?_⟩
    have hd12 : (t1 - T) / e.dReleaseTime ≤ (t2 - T) / e.dReleaseTime :=
      (div_le_div_right hR).mpr (by linarith)
    rcases le_or_lt 0 e.dSustainAmplitude with hS0 | hS0
    · apply clampQ_mono
      have key : 0 ≤ ((t2 - T) / e.dReleaseTime - (t1 - T) / e.dReleaseTime)
          * e.dSustainAmplitude :=
        mul_nonneg (by linarith) hS0
      nlinarith [key]
    · have hd2 : (t2 - T) / e.dReleaseTime ≤ 1 := by
        rw [div_le_one hR]
        linarith
      have hd1 : (t1 - T) / e.dReleaseTime ≤ 1 := le_trans hd12 hd2
      have key1 : 0 ≤ (1 - (t1 - T) / e.dReleaseTime) * (-e.dSustainAmplitude) :=
        mul_nonneg (by linarith) (by linarith)
      have key2 : 0 ≤ (1 - (t2 - T) / e.dReleaseTime) * (-e.dSustainAmplitude) :=
        mul_nonneg (by linarith) (by linarith)
      rw [clampQ_of_le (by nlinarith [key1]), clampQ_of_le (by nlinarith [key2])]
  · intro t u v q h
    exact amplitude_fin_floor e t u v q h

/-- Claim C3, witness: the harmonica envelope (releaseTime 1/2), held
from 0 and released at T = 2, is silent at T + releaseTime. -/
theorem C3_release_profile_witness :
    amplitude harmonicaEnv (2 + harmonicaEnv.dReleaseTime) 0 2 = FV.fin 0 :=
  (C3_release_profile harmonicaEnv 0 2 (by norm_num [harmonicaEnv]) (by norm_num)
    (by norm_num [harmonicaEnv])).1

/-- Claim C4: every note still in the registry after a MakeNoise tick is
active and was already in the registry before the tick, and a note whose
instrument reports finished on this tick is removed before the tick
returns and is absent again after the next tick, so the same note is
never rendered, and never reports finished, on two consecutive ticks. -/
theorem C4_finished_retired (f : SoundFn) (t t2 : ℚ) (ns : List note) :
    (∀ m ∈ (makeNoise f t ns).2, m.active = true ∧ m ∈ ns) ∧
    (∀ n ∈ ns, ∀ i, n.channel = some i → (f i t n).2 = true →
      n ∉ (makeNoise f t ns).2 ∧
      n ∉ (makeNoise f t2 ((makeNoise f t ns).2)).2) := by
  refine ⟨makeNoise_mem_active_sub f t ns, ?_⟩
  intro n _ i hch hfin
  have h1 := makeNoise_finished_not_mem f t ns n i hch hfin
  exact ⟨h1, fun hmem => h1 ((makeNoise_mem_active_sub f t2 _ n hmem).2)⟩

/-- Claim C4, witness: a live note whose instrument reports finished is
gone after the tick at time 0 and still gone after the tick at time 1. -/
theorem C4_finished_retired_witness :
    liveNote ∉ (makeNoise doneSound 0 [liveNote]).2 ∧
    liveNote ∉ (makeNoise doneSound 1 ((makeNoise doneSound 0 [liveNote]).2)).2 :=
  (C4_finished_retired doneSound 0 1 [liveNote]).2 liveNote (by simp) 1 rfl rfl

/-- Claim C5: MakeNoise returns the sum of the per-note instrument
samples scaled by the fixed master gain 0.2 = 1/5, and on an empty
registry it returns exactly 0. -/
theorem C5_mix_masterGain (f : SoundFn) (t : ℚ) :
    makeNoise f t [] = (FV.fin 0, []) ∧
    ∀ ns : List note,
      (makeNoise f t ns).1
        = (sumFV (ns.map (fun n => (processNote f t n).1))).mul (FV.fin (1/5)) := by
  constructor
  · simp [makeNoise, FV.mul]
  · exact makeNoise_fst f t

/-- Claim C6, counterexample to the claim as stated: a brand-new note
with on = 6 and off = on = 6 is NOT equivalent to the re-triggered note
(on = 6, stale off = 5).  With off = on the envelope takes the released
branch, and the harmonica's zero attack then gives NaN, while the
re-triggered note is held with amplitude 39/40 at t = 6.5. -/
theorem C6_cex :
    amplitude harmonicaEnv (13/2) 6 5 = FV.fin (39/40) ∧
    amplitude harmonicaEnv (13/2) 6 6 = FV.nan ∧
    FV.fin ((39:ℚ)/40) ≠ FV.nan := by
  refine ⟨?_, ?_, by simp⟩
  · norm_num [amplitude, heldAmpRaw, fdiv, FV.mul, FV.add, FV.sub, FV.neg, FV.le, harmonicaEnv]
  · norm_num [amplitude, heldAmpRaw, fdiv, FV.mul, FV.add, FV.sub, FV.neg, FV.le, harmonicaEnv]

/-- Claim C6 (amended): a note re-triggered at t = 6 during its release
(on set to 6, stale off = 5 kept) behaves, for every t ≥ 6, exactly like
a brand-new note with on = 6 and off < on (as created by the code, which
leaves off = 0): the held branch never reads off, so both the envelope
amplitude and the harmonica's sample and finished flag agree, for every
oscillator behaviour. -/
theorem C6_retrigger (M : OscModel) (t : ℚ) (i : Int) (a1 a2 : Bool)
    (c1 c2 : Option Nat) (off1 off2 : ℚ)
    (h1 : off1 < 6) (h2 : off2 < 6) (ht : 6 ≤ t) :
    amplitude harmonicaEnv t 6 off1 = amplitude harmonicaEnv t 6 off2 ∧
    harmonica_sound M t { id := i, tOn := 6, off := off1, active := a1, channel := c1 }
      = harmonica_sound M t { id := i, tOn := 6, off := off2, active := a2, channel := c2 } := by
  have he := amplitude_off_irrelevant harmonicaEnv t 6 off1 off2 h1 h2
  refine ⟨he, ?_⟩
  simp [harmonica_sound, he]

/-- Claim C6, witness: the re-triggered note (off = 5) and the fresh
note (off = 0) agree at t = 7 under the trivial oscillator model. -/
theorem C6_retrigger_witness :
    amplitude harmonicaEnv 7 6 5 = amplitude harmonicaEnv 7 6 0 ∧
    harmonica_sound zeroOsc 7 { id := 64, tOn := 6, off := 5, active := true, channel := some 1 }
      = harmonica_sound zeroOsc 7 { id := 64, tOn := 6, off := 0, active := true, channel := some 1 } :=
  C6_retrigger zeroOsc 7 64 true true (some 1) (some 1) 5 0 (by norm_num) (by norm_num)
    (by norm_num)

/-- Claim C7: on the empty registry the KEYUP handler finds no matching
note and the source then dereferences vecNotes.end() without the
end-iterator check the KEYDOWN branch has (undefined behaviour, modelled
as none), so the claimed silent no-op does not hold; the idempotence
half does hold: an already-released matching note (off > on) is returned
unchanged, its off is not stamped again. -/
theorem C7_keyup_no_end_check :
    keyUpRelease 64 1 5 [] = none ∧
    keyUpRelease 64 1 5 [{ id := 64, tOn := 1, off := 2, active := true, channel := some 1 }]
      = some [{ id := 64, tOn := 1, off := 2, active := true, channel := some 1 }] := by
  refine ⟨rfl, ?_⟩
  norm_num [keyUpRelease]

/-- Claim C8: with tempo 120, 4 beats and 4 sub-beats (16 steps of
0.125 s) and a single channel whose pattern hits on step 0 only, feeding
the sequencer exactly 2.0 seconds emits exactly one note and returns the
current-step counter to its starting value. -/
theorem C8_sequencer_single_hit :
    (c8Seq.update 2).2 = 1 ∧ (c8Seq.update 2).1.nCurrentBeat = c8Seq.nCurrentBeat := by
  norm_num [Sequencer.update, c8Seq, Sequencer.make, c8Pattern, seqLoopF, seqStep, defaultNote]
  decide

/-- Claim C9: for every integer degree, the pitch mapping satisfies
scale(degree + 12) = 2 * scale(degree) up to a relative error of at most
10 to the minus 9 (the source's ratio constant is a 31-digit decimal
approximation of the twelfth root of two). -/
theorem C9_octave_doubling (d : Int) :
    |scaleQ (d + 12) - 2 * scaleQ d| ≤ scaleQ d / 10 ^ 9 := by
  have hb : (0:ℚ) < scaleBase := by norm_num [scaleBase]
  have hbne : scaleBase ≠ 0 := ne_of_gt hb
  have hpos : 0 < scaleQ d := by
    unfold scaleQ
    exact mul_pos (by norm_num) (zpow_pos hb d)
  have hsplit : scaleQ (d + 12) = scaleQ d * scaleBase ^ (12:ℤ) := by
    unfold scaleQ
    rw [zpow_add₀ hbne]
    ring
  have hkey : |scaleBase ^ (12:ℤ) - 2| ≤ 1 / 10 ^ 9 := by
    rw [show (12:ℤ) = ((12:ℕ):ℤ) by norm_num, zpow_natCast, abs_le]
    constructor
    · norm_num [scaleBase]
    · norm_num [scaleBase]
  calc |scaleQ (d + 12) - 2 * scaleQ d|
      = |scaleQ d * (scaleBase ^ (12:ℤ) - 2)| := by rw [hsplit]; ring_nf
    _ = scaleQ d * |scaleBase ^ (12:ℤ) - 2| := by rw [abs_mul, abs_of_pos hpos]
    _ ≤ scaleQ d * (1 / 10 ^ 9) := mul_le_mul_of_nonneg_left hkey hpos.le
    _ = scaleQ d / 10 ^ 9 := by ring

/-- Claim C10: a registry note with a null instrument pointer is skipped
by the MakeNoise loop: it contributes exactly 0 to the mix (the output
equals the output without it) and it is never reported finished, so it
survives the tick; rendering is total on such registries. -/
theorem C10_null_instrument (f : SoundFn) (t : ℚ) (ns1 ns2 : List note) (n : note)
    (hch : n.channel = none) (ha : n.active = true) :
    (makeNoise f t (ns1 ++ n :: ns2)).1 = (makeNoise f t (ns1 ++ ns2)).1 ∧
    n ∈ (makeNoise f t (ns1 ++ n :: ns2)).2 := by
  constructor
  · have hg : (processNote f t n).1 = FV.fin 0 := by simp [processNote, hch]
    rw [makeNoise_fst, makeNoise_fst, List.map_append, List.map_append, List.map_cons,
      sumFV_append, sumFV_append]
    simp [sumFV, hg, FV.fin_zero_add]
  · rw [mem_makeNoise_snd]
    exact ⟨⟨n, by simp, by simp [processNote, hch]⟩, ha⟩

/-- Claim C10, witness: a lone null-channel note contributes 0 and stays
in the registry. -/
theorem C10_null_instrument_witness :
    (makeNoise zeroSound 0 ([] ++ nullNote :: [])).1 = (makeNoise zeroSound 0 ([] ++ [])).1 ∧
    nullNote ∈ (makeNoise zeroSound 0 ([] ++ nullNote :: [])).2 :=
  C10_null_instrument zeroSound 0 [] [] nullNote rfl rfl

end Synth
